import Mathlib

/-!
Shallow embedding of the beat-synchronized playback and mixing engine of the
`recoupable/daw` repository.

Sources embedded here:
* `AudioMixer.ts` — the `AudioMixer` class (addSource / removeSource /
  setSourceGain / setSourcePan / setSourceMute / setSourceSolo / setMute /
  `_updateSourceGain` / `_updateAllSourceGains` / `_updateMixingGain`).
* `useAudioBlockManager` — block list management (`addAudioBlock`,
  `updateAudioBlock`, drag handling `handleMouseMove`), voice tracking
  (`playAudioBlock`, `stopAudioBlock`) and the per-tick reconciliation
  `checkBlocksForPlayback`.
* `usePlaybackControl` — the transport clock (`togglePlayback`,
  `stopPlayback`, `changeBpm`, `updateBeatPosition`).

Modelling conventions: beat positions, wall-clock milliseconds and gain
values are rationals; Web-Audio gain ramps (`rampTo`) are modelled by their
settled target value; asynchronous loading is modelled by the set of block
ids whose `Tone.Player` has finished loading (`loadedPlayers`); the audio
context is assumed ready (`initializeAudioContext` succeeding), since its
failure is environmental, not part of the engine's logic.
-/

/-- The `AudioBlock` interface from `types/daw.ts`. Beat positions are ℚ. -/
structure AudioBlock where
  id : String
  trackId : String
  name : String
  start : ℚ
  duration : ℚ
  audioUrl : Option String
  color : Option String
deriving DecidableEq

/-- Resolved `AudioSourceOptions` (every field present, after `??` defaults). -/
structure AudioSourceOptions where
  gain : ℚ
  pan : ℚ
  fadeIn : ℚ
  fadeOut : ℚ
  solo : Bool
  mute : Bool
deriving DecidableEq

/-- The optional `AudioSourceOptions` argument of `addSource` (TS fields may
be absent; `none` stands for `undefined`). -/
structure AudioSourceOptsIn where
  gain : Option ℚ := none
  pan : Option ℚ := none
  fadeIn : Option ℚ := none
  fadeOut : Option ℚ := none
  solo : Option Bool := none
  mute : Option Bool := none
deriving DecidableEq

/-- The `??` defaulting at the top of `AudioMixer.addSource`. -/
def applyDefaults (o : AudioSourceOptsIn) : AudioSourceOptions :=
  { gain := o.gain.getD (8/10)
    pan := o.pan.getD 0
    fadeIn := o.fadeIn.getD (1/100)
    fadeOut := o.fadeOut.getD (1/100)
    solo := o.solo.getD false
    mute := o.mute.getD false }

/-- One entry of the mixer's `activeSources` map.  `appliedGain` is the
settled value of the source's `Tone.Gain` node (the last ramp target);
`options` is the stored `AudioSourceOptions` record. -/
structure AudioSource where
  id : String
  appliedGain : ℚ
  pan : ℚ
  options : AudioSourceOptions
deriving DecidableEq

/-- The `AudioMixer` class state: master gain node value, the `_muted` flag,
and the `activeSources` map (as an insertion-ordered list keyed by `id`).
The mixing-bus gain is derived from `activeSources.size` (see `mixGain`). -/
structure AudioMixer where
  masterGain : ℚ
  muted : Bool
  activeSources : List AudioSource
deriving DecidableEq

/-- `this.activeSources.get(id)` — first (only) source with the given id. -/
def AudioMixer.findSource (m : AudioMixer) (id : String) : Option AudioSource :=
  m.activeSources.find? (fun s => s.id == id)

/-- `Map.set(id, source)`: overwrite an existing key, else append. -/
def setSource (l : List AudioSource) (s : AudioSource) : List AudioSource :=
  if l.any (fun t => t.id == s.id) then
    l.map (fun t => if t.id == s.id then s else t)
  else l ++ [s]

/-- `AudioMixer.addSource`: apply option defaults, create the gain node with
initial value `_muted ? 0 : gain`, and, when `fadeIn > 0`, ramp it from 0 up
to the stored gain (the code ramps to `sourceOptions.gain` regardless of
`_muted`).  The settled node value is therefore the stored gain whenever
`fadeIn > 0`. -/
def AudioMixer.addSource (m : AudioMixer) (id : String)
    (opts : AudioSourceOptsIn) : AudioMixer :=
  let so := applyDefaults opts
  let initGain : ℚ := if m.muted then 0 else so.gain
  let applied : ℚ := if 0 < so.fadeIn then so.gain else initGain
  let src : AudioSource := { id := id, appliedGain := applied, pan := so.pan, options := so }
  { m with activeSources := setSource m.activeSources src }

/-- `AudioMixer.removeSource`: no-op when the id is absent; otherwise the
source fades to 0 and, once the fade completes, is disconnected and deleted
from `activeSources` (settled state: the entry is gone). -/
def AudioMixer.removeSource (m : AudioMixer) (id : String) : AudioMixer :=
  match m.findSource id with
  | none => m
  | some _ => { m with activeSources := m.activeSources.filter (fun s => s.id != id) }

/-- `AudioMixer.setSourceGain`: store the new gain; ramp the node to it only
when the mixer is not master-muted. -/
def AudioMixer.setSourceGain (m : AudioMixer) (id : String) (g : ℚ) : AudioMixer :=
  { m with activeSources := m.activeSources.map (fun s =>
      if s.id == id then
        { s with options := { s.options with gain := g }
                 appliedGain := if m.muted then s.appliedGain else g }
      else s) }

/-- `AudioMixer.setSourcePan`. -/
def AudioMixer.setSourcePan (m : AudioMixer) (id : String) (p : ℚ) : AudioMixer :=
  { m with activeSources := m.activeSources.map (fun s =>
      if s.id == id then { s with options := { s.options with pan := p }, pan := p }
      else s) }

/-- Body of `_updateSourceGain`: recompute one source's node gain from the
master mute flag, its own mute, and the global any-solo condition. -/
def updateSourceGainCalc (muted anySolo : Bool) (s : AudioSource) : AudioSource :=
  let shouldBeMuted := muted || s.options.mute || (anySolo && !s.options.solo)
  { s with appliedGain := if shouldBeMuted then 0 else s.options.gain }

/-- `Array.from(activeSources.values()).some(s => s.options.solo)`. -/
def AudioMixer.anySolo (m : AudioMixer) : Bool :=
  m.activeSources.any (fun s => s.options.solo)

/-- `AudioMixer.setSourceMute`: when the id exists, store the flag and run
`_updateSourceGain` on that source alone (mute does not change `anySolo`). -/
def AudioMixer.setSourceMute (m : AudioMixer) (id : String) (muted : Bool) : AudioMixer :=
  match m.findSource id with
  | none => m
  | some _ =>
    { m with activeSources := m.activeSources.map (fun s =>
        if s.id == id then
          updateSourceGainCalc m.muted m.anySolo { s with options := { s.options with mute := muted } }
        else s) }

/-- `AudioMixer.setSourceSolo`: when the id exists, store the flag and run
`_updateAllSourceGains`, which recomputes every source's node gain against
the new any-solo condition. -/
def AudioMixer.setSourceSolo (m : AudioMixer) (id : String) (solo : Bool) : AudioMixer :=
  match m.findSource id with
  | none => m
  | some _ =>
    let srcs := m.activeSources.map (fun s =>
      if s.id == id then { s with options := { s.options with solo := solo } } else s)
    let any1 := srcs.any (fun s => s.options.solo)
    { m with activeSources := srcs.map (updateSourceGainCalc m.muted any1) }

/-- `AudioMixer.setMute`: set `_muted` and run `_updateAllSourceGains`. -/
def AudioMixer.setMute (m : AudioMixer) (b : Bool) : AudioMixer :=
  { m with muted := b
           activeSources := m.activeSources.map (updateSourceGainCalc b m.anySolo) }

/-- `AudioMixer.setMasterVolume`: clamp to [0,1] and ramp the master node. -/
def AudioMixer.setMasterVolume (m : AudioMixer) (v : ℚ) : AudioMixer :=
  { m with masterGain := max 0 (min 1 v) }

/-- The mixer as constructed: `masterOutput = Gain(0.9)`, not muted, no
sources. -/
def initialMixer : AudioMixer :=
  { masterGain := 9/10, muted := false, activeSources := [] }

/-- `_updateMixingGain`: the summing-bus compensation gain as a function of
the active-source count — `1` for `count ≤ 1`, else
`1 / (1 + Math.log(count) * 0.25)`. -/
noncomputable def mixGain (count : ℕ) : ℝ :=
  if 1 < count then 1 / (1 + Real.log count * 0.25) else 1

/-- The settled mixing-bus gain of a mixer state. -/
noncomputable def AudioMixer.busGain (m : AudioMixer) : ℝ :=
  mixGain m.activeSources.length

/-- The state of `useAudioBlockManager` that the scheduler reads and writes:
the block list, the set of playing block ids (`playingBlocksRef`, as a
duplicate-free list), the ids whose preloaded `Tone.Player` has finished
loading, and the mixer. -/
structure SchedulerState where
  audioBlocks : List AudioBlock
  playing : List String
  loadedPlayers : List String
  mixer : AudioMixer
deriving DecidableEq

/-- `stopAudioBlock`: remove the source from the mixer and delete the id
from `playingBlocksRef`. -/
def stopAudioBlock (s : SchedulerState) (blockId : String) : SchedulerState :=
  { s with mixer := s.mixer.removeSource blockId
           playing := s.playing.filter (fun x => x != blockId) }

/-- `addAudioBlock`: append the block to the list unconditionally; when it
has an `audioUrl`, preloading starts (asynchronously — the player is not
loaded yet, so `loadedPlayers` is unchanged at this point). -/
def addAudioBlock (s : SchedulerState) (b : AudioBlock) : SchedulerState :=
  { s with audioBlocks := s.audioBlocks ++ [b] }

/-- The options literal `{ fadeIn: 0.01, fadeOut: 0.01, gain: 0.8 }` passed
to the mixer by `playAudioBlock` / `playAudioFile`. -/
def playBlockOpts : AudioSourceOptsIn :=
  { fadeIn := some (1/100), fadeOut := some (1/100), gain := some (8/10) }

/-- `playAudioBlock` (settled semantics, audio context ready): look the
block up; bail out if missing or already playing; when its preloaded player
is loaded, or otherwise when it has an `audioUrl` (the `playAudioFile`
fallback), add a mixer source and record the id as playing; a block with
neither logs `No audio URL for block` and plays nothing. -/
def playAudioBlock (s : SchedulerState) (blockId : String) : SchedulerState :=
  match s.audioBlocks.find? (fun b => b.id == blockId) with
  | none => s
  | some block =>
    if blockId ∈ s.playing then s
    else if blockId ∈ s.loadedPlayers then
      { s with mixer := s.mixer.addSource blockId playBlockOpts
               playing := blockId :: s.playing }
    else
      match block.audioUrl with
      | some _ =>
        { s with mixer := s.mixer.addSource blockId playBlockOpts
                 playing := blockId :: s.playing }
      | none => s

/-- Start/stop commands the reconciliation issues to the mixer. -/
inductive Cmd where
  | stop (id : String)
  | start (id : String)
deriving DecidableEq

/-- Whether the playhead is inside a block's occupied range
`[start, start + duration)` — the start-pass condition
`currentBeat >= blockStart && currentBeat < blockEnd`. -/
def inRange (currentBeat : ℚ) (b : AudioBlock) : Bool :=
  decide (b.start ≤ currentBeat) && decide (currentBeat < b.start + b.duration)

/-- The stop-pass decision for one playing id: stop when its block no longer
exists, or when the playhead is outside the block's range
(`currentBeat < blockStart || currentBeat >= blockEnd`). -/
def shouldStop (blocks : List AudioBlock) (currentBeat : ℚ) (blockId : String) : Bool :=
  match blocks.find? (fun b => b.id == blockId) with
  | none => true
  | some b => !(inRange currentBeat b)

/-- One step of the stop pass of `checkBlocksForPlayback`, also recording
the emitted stop command. -/
def stopPassStep (currentBeat : ℚ) (acc : SchedulerState × List Cmd)
    (blockId : String) : SchedulerState × List Cmd :=
  if shouldStop acc.1.audioBlocks currentBeat blockId then
    (stopAudioBlock acc.1 blockId, acc.2 ++ [Cmd.stop blockId])
  else acc

/-- One step of the start pass: when the playhead is inside the block and it
is not already playing, invoke `playAudioBlock` (the `justEntered` branch
only differs in its log line). -/
def startPassStep (currentBeat : ℚ) (acc : SchedulerState × List Cmd)
    (b : AudioBlock) : SchedulerState × List Cmd :=
  if inRange currentBeat b = true ∧ b.id ∉ acc.1.playing then
    (playAudioBlock acc.1 b.id, acc.2 ++ [Cmd.start b.id])
  else acc

/-- `checkBlocksForPlayback(currentBeat, prevBeat)`: first the stop pass
over a snapshot of the playing ids, then the start pass over the block
list.  `prevBeat` is only used by the code to pick a log message, so it
does not influence the result. -/
def checkBlocksForPlayback (s : SchedulerState) (currentBeat prevBeat : ℚ) :
    SchedulerState × List Cmd :=
  let afterStop := s.playing.foldl (stopPassStep currentBeat) (s, [])
  s.audioBlocks.foldl (startPassStep currentBeat) afterStop

/-- Whether a block can actually sound when `playAudioBlock` runs: its
preloaded player is loaded, or it has an `audioUrl` for the fallback path. -/
def hasAudio (s : SchedulerState) (b : AudioBlock) : Bool :=
  decide (b.id ∈ s.loadedPlayers) || b.audioUrl.isSome

/-- The `Partial<AudioBlock>` argument of `updateAudioBlock` (`none` stands
for an absent property; for the two `Option`-valued block fields the update
value itself is an `Option`). -/
structure AudioBlockUpdates where
  id : Option String := none
  trackId : Option String := none
  name : Option String := none
  start : Option ℚ := none
  duration : Option ℚ := none
  audioUrl : Option (Option String) := none
  color : Option (Option String) := none
deriving DecidableEq

/-- The object spread `{ ...block, ...updates }`. -/
def applyUpdates (b : AudioBlock) (u : AudioBlockUpdates) : AudioBlock :=
  { id := u.id.getD b.id
    trackId := u.trackId.getD b.trackId
    name := u.name.getD b.name
    start := u.start.getD b.start
    duration := u.duration.getD b.duration
    audioUrl := u.audioUrl.getD b.audioUrl
    color := u.color.getD b.color }

/-- `updateAudioBlock`: map the spread over the matching block; when the
update carries an `audioUrl`, the old preloaded player is disposed and a
fresh (not yet loaded) one is created, so the id leaves `loadedPlayers`. -/
def updateAudioBlock (s : SchedulerState) (blockId : String)
    (u : AudioBlockUpdates) : SchedulerState :=
  { s with audioBlocks := s.audioBlocks.map (fun b =>
      if b.id == blockId then applyUpdates b u else b)
           loadedPlayers := if u.audioUrl.isSome then
             s.loadedPlayers.filter (fun x => x != blockId)
           else s.loadedPlayers }

/-- The drag state of `useAudioBlockManager`. -/
structure DragState where
  draggedBlock : Option String
  dragStartX : ℚ
  dragStartBeat : ℚ
deriving DecidableEq

/-- JavaScript `Math.round`: round half toward positive infinity. -/
def jsRound (q : ℚ) : ℤ := ⌊q + 1/2⌋

/-- `handleMouseMove`: while dragging an existing block, convert the pixel
delta to a whole number of beats (64 px per beat, rounded), clamp the new
start at beat 1, and rewrite only the `start` property of that block. -/
def handleMouseMove (s : SchedulerState) (d : DragState) (clientX : ℚ) : SchedulerState :=
  match d.draggedBlock with
  | none => s
  | some blockId =>
    match s.audioBlocks.find? (fun b => b.id == blockId) with
    | none => s
    | some _ =>
      let deltaX := clientX - d.dragStartX
      let deltaBeats : ℤ := jsRound (deltaX / 64)
      let newStart : ℚ := max 1 (d.dragStartBeat + (deltaBeats : ℚ))
      updateAudioBlock s blockId { start := some newStart }

/-- The transport state of `usePlaybackControl`.  `startTime` is
`startTimeRef.current` in `performance.now()` milliseconds (`none` when
null); `currentBeat`/`currentBar` are the React state values. -/
structure PlaybackState where
  isPlaying : Bool
  currentBeat : ℚ
  currentBar : ℤ
  bpm : ℚ
  startTime : Option ℚ
deriving DecidableEq

/-- `updateBeatPosition` (one animation/backup-timer step at wall-clock
`now`): while playing with an anchored start time, recompute the beat from
the absolute elapsed time. -/
def updateBeatPosition (p : PlaybackState) (now : ℚ) : PlaybackState :=
  if p.isPlaying then
    match p.startTime with
    | none => p
    | some st =>
      let elapsedTime := (now - st) / 1000
      let beatsPerSecond := p.bpm / 60
      let totalBeats := elapsedTime * beatsPerSecond
      { p with currentBeat := totalBeats, currentBar := ⌊totalBeats / 4⌋ + 1 }
  else p

/-- `togglePlayback` at wall-clock `now`: starting anchors
`startTimeRef.current = performance.now()`; stopping clears the anchor and
the timers, leaving `currentBeat` at its last value. -/
def togglePlayback (p : PlaybackState) (now : ℚ) : PlaybackState :=
  if p.isPlaying then
    { p with isPlaying := false, startTime := none }
  else
    { p with isPlaying := true, startTime := some now }

/-- `stopPlayback`: stop and reset the position to beat 0 / bar 1. -/
def stopPlayback (p : PlaybackState) : PlaybackState :=
  { p with isPlaying := false, currentBeat := 0, currentBar := 1, startTime := none }

/-- The `Math.max(20, Math.min(300, newBpm))` clamp in `changeBpm`. -/
def clampBpm (x : ℚ) : ℚ := max 20 (min 300 x)

/-- `changeBpm` at wall-clock `now`: clamp, store the new bpm, and — when
playing with an anchor — re-derive the start time so that the beat position
computed with the new bpm at `now` equals the one computed with the old bpm. -/
def changeBpm (p : PlaybackState) (newBpm : ℚ) (now : ℚ) : PlaybackState :=
  let validBpm := clampBpm newBpm
  let p1 := { p with bpm := validBpm }
  if p.isPlaying then
    match p.startTime with
    | none => p1
    | some st =>
      let elapsed := (now - st) / 1000
      let oldBeatsPerSecond := p.bpm / 60
      let currentBeatPos := elapsed * oldBeatsPerSecond
      let newBeatsPerSecond := validBpm / 60
      let newElapsed := currentBeatPos / newBeatsPerSecond
      { p1 with startTime := some (now - newElapsed * 1000) }
  else p1

/-- The beat position the transport would report at wall-clock `now`: the
value `updateBeatPosition` computes while running, the frozen state value
otherwise. -/
def beatAt (p : PlaybackState) (now : ℚ) : ℚ :=
  if p.isPlaying then
    match p.startTime with
    | none => p.currentBeat
    | some st => (now - st) / 1000 * (p.bpm / 60)
  else p.currentBeat

/-! ### Basic lemmas about the embedded operations -/

/-- `_updateSourceGain` rewrites only the node gain, never the stored
options. -/
theorem updateSourceGainCalc_options (mu a : Bool) (s : AudioSource) :
    (updateSourceGainCalc mu a s).options = s.options := rfl

theorem updateSourceGainCalc_id (mu a : Bool) (s : AudioSource) :
    (updateSourceGainCalc mu a s).id = s.id := rfl

theorem stopAudioBlock_audioBlocks (s : SchedulerState) (i : String) :
    (stopAudioBlock s i).audioBlocks = s.audioBlocks := rfl

theorem stopAudioBlock_loadedPlayers (s : SchedulerState) (i : String) :
    (stopAudioBlock s i).loadedPlayers = s.loadedPlayers := rfl

/-- `playAudioBlock` either changes nothing, or (when the id is not yet
playing and its block can sound) adds one mixer source and records the id. -/
theorem playAudioBlock_cases (s : SchedulerState) (i : String) :
    playAudioBlock s i = s ∨
    (i ∉ s.playing ∧ playAudioBlock s i =
      { s with mixer := s.mixer.addSource i playBlockOpts, playing := i :: s.playing }) := by
  unfold playAudioBlock
  cases h : s.audioBlocks.find? (fun b => b.id == i) with
  | none => exact Or.inl rfl
  | some blk =>
    by_cases hp : i ∈ s.playing
    · left; simp [hp]
    · by_cases hl : i ∈ s.loadedPlayers
      · right; exact ⟨hp, by simp [hp, hl]⟩
      · cases hu : blk.audioUrl with
        | some u => right; exact ⟨hp, by simp [hp, hl, hu]⟩
        | none => left; simp [hp, hl, hu]

theorem playAudioBlock_audioBlocks (s : SchedulerState) (i : String) :
    (playAudioBlock s i).audioBlocks = s.audioBlocks := by
  rcases playAudioBlock_cases s i with h | ⟨-, h⟩ <;> rw [h]

theorem playAudioBlock_loadedPlayers (s : SchedulerState) (i : String) :
    (playAudioBlock s i).loadedPlayers = s.loadedPlayers := by
  rcases playAudioBlock_cases s i with h | ⟨-, h⟩ <;> rw [h]

theorem playAudioBlock_playing_nodup (s : SchedulerState) (i : String)
    (h : s.playing.Nodup) : (playAudioBlock s i).playing.Nodup := by
  rcases playAudioBlock_cases s i with he | ⟨hp, he⟩ <;> rw [he]
  · exact h
  · exact List.nodup_cons.mpr ⟨hp, h⟩

/-- With duplicate-free block ids, `find?` by a member's id returns exactly
that member. -/
theorem find?_id_of_nodup (B : List AudioBlock) (b : AudioBlock)
    (hnd : (B.map AudioBlock.id).Nodup) (hb : b ∈ B) :
    B.find? (fun x => x.id == b.id) = some b := by
  induction B with
  | nil => cases hb
  | cons h t ih =>
    rw [List.map_cons] at hnd
    have hnd' := List.nodup_cons.mp hnd
    rcases List.mem_cons.mp hb with rfl | hbt
    · exact List.find?_cons_of_pos _ (by simp)
    · have hne : h.id ≠ b.id := fun he =>
        hnd'.1 (he ▸ List.mem_map_of_mem AudioBlock.id hbt)
      rw [List.find?_cons_of_neg _ (by simpa using hne)]
      exact ih hnd'.2 hbt

/-- When the id is not yet playing and its block is the (unique) one found,
`playAudioBlock` adds the voice exactly when the block can sound. -/
theorem playAudioBlock_spec (s : SchedulerState) (b : AudioBlock)
    (hnd : (s.audioBlocks.map AudioBlock.id).Nodup) (hb : b ∈ s.audioBlocks)
    (hp : b.id ∉ s.playing) :
    playAudioBlock s b.id = if hasAudio s b = true then
      { s with mixer := s.mixer.addSource b.id playBlockOpts, playing := b.id :: s.playing }
    else s := by
  unfold playAudioBlock
  rw [find?_id_of_nodup s.audioBlocks b hnd hb]
  by_cases hl : b.id ∈ s.loadedPlayers
  · have : hasAudio s b = true := by simp [hasAudio, hl]
    simp [hp, hl, this]
  · cases hu : b.audioUrl with
    | some u =>
      have : hasAudio s b = true := by simp [hasAudio, hu]
      simp [hp, hl, hu, this]
    | none =>
      have : hasAudio s b = false := by simp [hasAudio, hl, hu]
      simp [hp, hl, hu, this]

/-! ### Stop-pass lemmas -/

theorem stopPassStep_audioBlocks (cb : ℚ) (acc : SchedulerState × List Cmd) (i : String) :
    (stopPassStep cb acc i).1.audioBlocks = acc.1.audioBlocks := by
  unfold stopPassStep; split <;> rfl

theorem stopPassStep_loadedPlayers (cb : ℚ) (acc : SchedulerState × List Cmd) (i : String) :
    (stopPassStep cb acc i).1.loadedPlayers = acc.1.loadedPlayers := by
  unfold stopPassStep; split <;> rfl

theorem stopFold_audioBlocks (cb : ℚ) (l : List String) (acc : SchedulerState × List Cmd) :
    ((l.foldl (stopPassStep cb) acc).1).audioBlocks = acc.1.audioBlocks := by
  induction l generalizing acc with
  | nil => rfl
  | cons a t ih => rw [List.foldl_cons, ih, stopPassStep_audioBlocks]

theorem stopFold_loadedPlayers (cb : ℚ) (l : List String) (acc : SchedulerState × List Cmd) :
    ((l.foldl (stopPassStep cb) acc).1).loadedPlayers = acc.1.loadedPlayers := by
  induction l generalizing acc with
  | nil => rfl
  | cons a t ih => rw [List.foldl_cons, ih, stopPassStep_loadedPlayers]

/-- After the stop pass over a snapshot list `l`, an id is still playing
iff it was playing and `l` did not schedule it for stopping. -/
theorem stopFold_playing_mem (cb : ℚ) (l : List String)
    (acc : SchedulerState × List Cmd) (i : String) :
    i ∈ ((l.foldl (stopPassStep cb) acc).1).playing ↔
      i ∈ acc.1.playing ∧
        ¬(i ∈ l ∧ shouldStop acc.1.audioBlocks cb i = true) := by
  induction l generalizing acc with
  | nil => simp
  | cons a t ih =>
    rw [List.foldl_cons, ih, stopPassStep_audioBlocks]
    unfold stopPassStep
    by_cases h : shouldStop acc.1.audioBlocks cb a = true
    · simp only [h, if_true]
      unfold stopAudioBlock
      simp only [List.mem_cons, List.mem_filter, bne_iff_ne, ne_eq, decide_eq_true_eq]
      by_cases hia : i = a
      · subst hia; simp [h]
      · simp only [hia, false_or]
        tauto
    · rw [if_neg h]
      simp only [List.mem_cons]
      by_cases hia : i = a
      · subst hia
        have hss : shouldStop acc.1.audioBlocks cb i = false := by simpa using h
        simp [hss]
      · simp [hia]

theorem stopFold_playing_nodup (cb : ℚ) (l : List String)
    (acc : SchedulerState × List Cmd) (h : acc.1.playing.Nodup) :
    ((l.foldl (stopPassStep cb) acc).1).playing.Nodup := by
  induction l generalizing acc with
  | nil => exact h
  | cons a t ih =>
    rw [List.foldl_cons]
    apply ih
    unfold stopPassStep
    split
    · exact List.Nodup.filter _ h
    · exact h

/-- Everything the stop pass appends to the trace is a stop command for a
snapshot id satisfying the stop condition. -/
theorem stopFold_trace (cb : ℚ) (l : List String) (acc : SchedulerState × List Cmd) :
    ∃ t, (l.foldl (stopPassStep cb) acc).2 = acc.2 ++ t ∧
      ∀ c ∈ t, ∃ j, j ∈ l ∧ shouldStop acc.1.audioBlocks cb j = true ∧ c = Cmd.stop j := by
  induction l generalizing acc with
  | nil => exact ⟨[], by simp, by simp⟩
  | cons a t ih =>
    rw [List.foldl_cons]
    by_cases h : shouldStop acc.1.audioBlocks cb a = true
    · have hstep : stopPassStep cb acc a = (stopAudioBlock acc.1 a, acc.2 ++ [Cmd.stop a]) := by
        unfold stopPassStep; simp [h]
      obtain ⟨u, hu, hall⟩ := ih (stopPassStep cb acc a)
      refine ⟨Cmd.stop a :: u, ?_, ?_⟩
      · rw [hu, hstep]; simp
      · intro c hc
        rcases List.mem_cons.mp hc with rfl | hcu
        · exact ⟨a, List.mem_cons_self a t, h, rfl⟩
        · obtain ⟨j, hj, hjs, hcj⟩ := hall c hcu
          rw [stopPassStep_audioBlocks] at hjs
          exact ⟨j, List.mem_cons_of_mem a hj, hjs, hcj⟩
    · have hstep : stopPassStep cb acc a = acc := by
        unfold stopPassStep; simp [h]
      rw [hstep]
      obtain ⟨u, hu, hall⟩ := ih acc
      refine ⟨u, hu, fun c hc => ?_⟩
      obtain ⟨j, hj, hjs, hcj⟩ := hall c hc
      exact ⟨j, List.mem_cons_of_mem a hj, hjs, hcj⟩

/-- A playing id whose stop condition holds gets a stop command emitted. -/
theorem stopFold_emits (cb : ℚ) (l : List String) (acc : SchedulerState × List Cmd)
    (i : String) (hi : i ∈ l) (hss : shouldStop acc.1.audioBlocks cb i = true) :
    Cmd.stop i ∈ (l.foldl (stopPassStep cb) acc).2 := by
  induction l generalizing acc with
  | nil => cases hi
  | cons a t ih =>
    rw [List.foldl_cons]
    rcases List.mem_cons.mp hi with rfl | hi'
    · have hstep : (stopPassStep cb acc i).2 = acc.2 ++ [Cmd.stop i] := by
        unfold stopPassStep; simp [hss]
      obtain ⟨u, hu, -⟩ := stopFold_trace cb t (stopPassStep cb acc i)
      rw [hu, hstep]
      simp
    · exact ih (stopPassStep cb acc a) hi'
        (by rw [stopPassStep_audioBlocks]; exact hss)

/-! ### Start-pass lemmas -/

theorem startPassStep_audioBlocks (cb : ℚ) (acc : SchedulerState × List Cmd) (b : AudioBlock) :
    (startPassStep cb acc b).1.audioBlocks = acc.1.audioBlocks := by
  unfold startPassStep
  split
  · exact playAudioBlock_audioBlocks acc.1 b.id
  · rfl

theorem startPassStep_loadedPlayers (cb : ℚ) (acc : SchedulerState × List Cmd) (b : AudioBlock) :
    (startPassStep cb acc b).1.loadedPlayers = acc.1.loadedPlayers := by
  unfold startPassStep
  split
  · exact playAudioBlock_loadedPlayers acc.1 b.id
  · rfl

theorem startFold_audioBlocks (cb : ℚ) (l : List AudioBlock) (acc : SchedulerState × List Cmd) :
    ((l.foldl (startPassStep cb) acc).1).audioBlocks = acc.1.audioBlocks := by
  induction l generalizing acc with
  | nil => rfl
  | cons a t ih => rw [List.foldl_cons, ih, startPassStep_audioBlocks]

theorem startFold_loadedPlayers (cb : ℚ) (l : List AudioBlock) (acc : SchedulerState × List Cmd) :
    ((l.foldl (startPassStep cb) acc).1).loadedPlayers = acc.1.loadedPlayers := by
  induction l generalizing acc with
  | nil => rfl
  | cons a t ih => rw [List.foldl_cons, ih, startPassStep_loadedPlayers]

/-- `hasAudio` only reads the loaded-player set. -/
theorem hasAudio_congr (s s' : SchedulerState) (b : AudioBlock)
    (h : s.loadedPlayers = s'.loadedPlayers) : hasAudio s b = hasAudio s' b := by
  unfold hasAudio; rw [h]

/-- Weak membership bound on the start pass, with no id-uniqueness
assumption: a newly playing id is the id of some block in the pass list. -/
theorem startFold_playing_mem_weak (cb : ℚ) (l : List AudioBlock)
    (acc : SchedulerState × List Cmd) (i : String)
    (h : i ∈ ((l.foldl (startPassStep cb) acc).1).playing) :
    i ∈ acc.1.playing ∨ ∃ b ∈ l, b.id = i := by
  induction l generalizing acc with
  | nil => exact Or.inl h
  | cons a t ih =>
    rw [List.foldl_cons] at h
    rcases ih (startPassStep cb acc a) h with hmem | ⟨b, hb, hbi⟩
    · unfold startPassStep at hmem
      split at hmem
      · rcases playAudioBlock_cases acc.1 a.id with he | ⟨-, he⟩ <;> rw [he] at hmem
        · exact Or.inl hmem
        · rcases List.mem_cons.mp hmem with rfl | hmem'
          · exact Or.inr ⟨a, List.mem_cons_self a t, rfl⟩
          · exact Or.inl hmem'
      · exact Or.inl hmem
    · exact Or.inr ⟨b, List.mem_cons_of_mem a hb, hbi⟩

/-- Full membership characterization of the start pass, assuming
duplicate-free block ids: an id plays afterwards iff it already played or
some block in the list carries it, lies under the playhead, and can sound. -/
theorem startFold_playing_mem (cb : ℚ) (l : List AudioBlock)
    (acc : SchedulerState × List Cmd)
    (hsub : ∀ b ∈ l, b ∈ acc.1.audioBlocks)
    (hnd : (acc.1.audioBlocks.map AudioBlock.id).Nodup) (i : String) :
    i ∈ ((l.foldl (startPassStep cb) acc).1).playing ↔
      i ∈ acc.1.playing ∨
        ∃ b ∈ l, b.id = i ∧ inRange cb b = true ∧ hasAudio acc.1 b = true := by
  induction l generalizing acc with
  | nil => simp
  | cons a t ih =>
    rw [List.foldl_cons]
    have hblocks := startPassStep_audioBlocks cb acc a
    have hloaded := startPassStep_loadedPlayers cb acc a
    rw [ih (startPassStep cb acc a)
      (by rw [hblocks]; exact fun b hb => hsub b (List.mem_cons_of_mem a hb))
      (by rw [hblocks]; exact hnd)]
    have hha : ∀ b, hasAudio (startPassStep cb acc a).1 b = hasAudio acc.1 b :=
      fun b => hasAudio_congr _ _ b hloaded
    simp only [hha]
    unfold startPassStep
    by_cases hg : inRange cb a = true ∧ a.id ∉ acc.1.playing
    · rw [if_pos hg]
      dsimp only
      rw [playAudioBlock_spec acc.1 a hnd (hsub a (List.mem_cons_self a t)) hg.2]
      by_cases ha : hasAudio acc.1 a = true
      · rw [if_pos ha]
        dsimp only
        simp only [List.mem_cons]
        constructor
        · rintro ((rfl | hmem) | ⟨b, hb, hbi, hbr, hba⟩)
          · exact Or.inr ⟨a, Or.inl rfl, rfl, hg.1, ha⟩
          · exact Or.inl hmem
          · exact Or.inr ⟨b, Or.inr hb, hbi, hbr, hba⟩
        · rintro (hmem | ⟨b, (rfl | hb), hbi, hbr, hba⟩)
          · exact Or.inl (Or.inr hmem)
          · exact Or.inl (Or.inl hbi.symm)
          · exact Or.inr ⟨b, hb, hbi, hbr, hba⟩
      · rw [if_neg ha]
        simp only [List.mem_cons]
        constructor
        · rintro (hmem | ⟨b, hb, hbi, hbr, hba⟩)
          · exact Or.inl hmem
          · exact Or.inr ⟨b, Or.inr hb, hbi, hbr, hba⟩
        · rintro (hmem | ⟨b, (rfl | hb), hbi, hbr, hba⟩)
          · exact Or.inl hmem
          · exact absurd hba ha
          · exact Or.inr ⟨b, hb, hbi, hbr, hba⟩
    · rw [if_neg hg]
      simp only [List.mem_cons]
      constructor
      · rintro (hmem | ⟨b, hb, hbi, hbr, hba⟩)
        · exact Or.inl hmem
        · exact Or.inr ⟨b, Or.inr hb, hbi, hbr, hba⟩
      · rintro (hmem | ⟨b, (rfl | hb), hbi, hbr, hba⟩)
        · exact Or.inl hmem
        · rcases not_and_or.mp hg with hr | hp
          · exact absurd hbr hr
          · exact Or.inl (hbi ▸ not_not.mp hp)
        · exact Or.inr ⟨b, hb, hbi, hbr, hba⟩

theorem startFold_playing_nodup (cb : ℚ) (l : List AudioBlock)
    (acc : SchedulerState × List Cmd) (h : acc.1.playing.Nodup) :
    ((l.foldl (startPassStep cb) acc).1).playing.Nodup := by
  induction l generalizing acc with
  | nil => exact h
  | cons a t ih =>
    rw [List.foldl_cons]
    apply ih
    unfold startPassStep
    split
    · exact playAudioBlock_playing_nodup acc.1 a.id h
    · exact h

/-- Everything the start pass appends to the trace is a start command for
an in-range block of the pass list. -/
theorem startFold_trace (cb : ℚ) (l : List AudioBlock) (acc : SchedulerState × List Cmd) :
    ∃ t, (l.foldl (startPassStep cb) acc).2 = acc.2 ++ t ∧
      ∀ c ∈ t, ∃ b, b ∈ l ∧ inRange cb b = true ∧ c = Cmd.start b.id := by
  induction l generalizing acc with
  | nil => exact ⟨[], by simp, by simp⟩
  | cons a t ih =>
    rw [List.foldl_cons]
    by_cases hg : inRange cb a = true ∧ a.id ∉ acc.1.playing
    · have hstep : startPassStep cb acc a = (playAudioBlock acc.1 a.id, acc.2 ++ [Cmd.start a.id]) := by
        unfold startPassStep; rw [if_pos hg]
      obtain ⟨u, hu, hall⟩ := ih (startPassStep cb acc a)
      refine ⟨Cmd.start a.id :: u, ?_, ?_⟩
      · rw [hu, hstep]; simp
      · intro c hc
        rcases List.mem_cons.mp hc with rfl | hcu
        · exact ⟨a, List.mem_cons_self a t, hg.1, rfl⟩
        · obtain ⟨b, hb, hbr, hcb⟩ := hall c hcu
          exact ⟨b, List.mem_cons_of_mem a hb, hbr, hcb⟩
    · have hstep : startPassStep cb acc a = acc := by
        unfold startPassStep; rw [if_neg hg]
      rw [hstep]
      obtain ⟨u, hu, hall⟩ := ih acc
      refine ⟨u, hu, fun c hc => ?_⟩
      obtain ⟨b, hb, hbr, hcb⟩ := hall c hc
      exact ⟨b, List.mem_cons_of_mem a hb, hbr, hcb⟩


/-! ### Claim theorems: scheduler reconciliation -/

/-- Claim C1 (amended): after a reconciliation tick, assuming block ids and
the playing set are duplicate-free and every block under the playhead can
actually sound (a loaded player or an `audioUrl`), the set of playing
voices is exactly the set of blocks whose occupied range `[start, start +
duration)` contains the current beat, and the playing set stays
duplicate-free (at most one live voice per block).  The claim as frozen is
refuted for blocks without audio content (see the counterexample). -/
theorem checkBlocks_reconciles (s : SchedulerState) (cb pb : ℚ)
    (hnd : (s.audioBlocks.map AudioBlock.id).Nodup)
    (hpnd : s.playing.Nodup)
    (haudio : ∀ b ∈ s.audioBlocks, inRange cb b = true → hasAudio s b = true) :
    (∀ i, i ∈ (checkBlocksForPlayback s cb pb).1.playing ↔
      ∃ b ∈ s.audioBlocks, b.id = i ∧ inRange cb b = true) ∧
    (checkBlocksForPlayback s cb pb).1.playing.Nodup := by
  unfold checkBlocksForPlayback
  have hAb := stopFold_audioBlocks cb s.playing (s, [])
  have hAl := stopFold_loadedPlayers cb s.playing (s, [])
  constructor
  · intro i
    rw [startFold_playing_mem cb s.audioBlocks _
      (by rw [hAb]; exact fun b hb => hb) (by rw [hAb]; exact hnd)]
    rw [stopFold_playing_mem]
    have hha : ∀ b, hasAudio (s.playing.foldl (stopPassStep cb) (s, [])).1 b = hasAudio s b :=
      fun b => hasAudio_congr _ _ b hAl
    simp only [hha]
    constructor
    · rintro (⟨hip, hns⟩ | ⟨b, hb, hbi, hbr, -⟩)
      · have hss : shouldStop s.audioBlocks cb i = false := by
          by_cases h : shouldStop s.audioBlocks cb i = true
          · exact absurd ⟨hip, h⟩ hns
          · simpa using h
        unfold shouldStop at hss
        cases hf : s.audioBlocks.find? (fun b => b.id == i) with
        | none => rw [hf] at hss; cases hss
        | some b =>
          rw [hf] at hss
          refine ⟨b, List.mem_of_find?_eq_some hf, ?_, ?_⟩
          · have := List.find?_some hf
            simpa using this
          · simpa using hss
      · exact ⟨b, hb, hbi, hbr⟩
    · rintro ⟨b, hb, hbi, hbr⟩
      subst hbi
      by_cases hip : b.id ∈ s.playing
      · left
        refine ⟨hip, ?_⟩
        rintro ⟨-, hss⟩
        unfold shouldStop at hss
        rw [find?_id_of_nodup s.audioBlocks b hnd hb] at hss
        simp [hbr] at hss
      · right
        exact ⟨b, hb, rfl, hbr, haudio b hb hbr⟩
  · exact startFold_playing_nodup cb s.audioBlocks _
      (stopFold_playing_nodup cb s.playing (s, []) hpnd)

/-- A one-block timeline (block with audio) used by the C1 witness. -/
def w1Block : AudioBlock := ⟨"w1", "t1", "n", 1, 4, some "u", none⟩

/-- Scheduler state holding `w1Block`, nothing playing. -/
def w1State : SchedulerState := ⟨[w1Block], [], [], initialMixer⟩

/-- A one-block timeline whose block has no audio, for the C1
counterexample. -/
def c1Block : AudioBlock := ⟨"c1", "t1", "n", 1, 4, none, none⟩

/-- Scheduler state holding `c1Block`, nothing playing. -/
def c1State : SchedulerState := ⟨[c1Block], [], [], initialMixer⟩

/-- Claim C1 witness: the concrete timeline `w1State` at beat 2 satisfies
the hypotheses, and the reconciliation law holds there. -/
theorem checkBlocks_reconciles_witness :
    (w1State.audioBlocks.map AudioBlock.id).Nodup ∧
    w1State.playing.Nodup ∧
    ("w1" ∈ (checkBlocksForPlayback w1State 2 (199/100)).1.playing ↔
      ∃ b ∈ w1State.audioBlocks, b.id = "w1" ∧ inRange 2 b = true) ∧
    (checkBlocksForPlayback w1State 2 (199/100)).1.playing.Nodup :=
  ⟨by decide, by decide,
    (checkBlocks_reconciles w1State 2 (199/100) (by decide) (by decide)
      (by simp [w1State, w1Block, hasAudio])).1 "w1",
    (checkBlocks_reconciles w1State 2 (199/100) (by decide) (by decide)
      (by simp [w1State, w1Block, hasAudio])).2⟩

/-- Claim C1 counterexample: `c1Block`'s range contains beat 2, yet after
the tick no voice for it is playing (it has no loaded player and no
`audioUrl`), refuting the claim as frozen. -/
theorem checkBlocks_missed_start_cex :
    inRange 2 c1Block = true ∧
    "c1" ∉ (checkBlocksForPlayback c1State 2 (199/100)).1.playing := by
  constructor
  · norm_num [inRange, c1Block]
  · norm_num [checkBlocksForPlayback, startPassStep, playAudioBlock, inRange,
      c1State, c1Block]

/-- Claim C6: within one reconciliation tick the emitted command trace is a
block of stop commands followed by a block of start commands, and — with
duplicate-free block ids — an id stopped in the tick is never started in
the same tick. -/
theorem checkBlocks_stops_before_starts (s : SchedulerState) (cb pb : ℚ) :
    (∃ stops starts, (checkBlocksForPlayback s cb pb).2 = stops ++ starts ∧
      (∀ c ∈ stops, ∃ i, c = Cmd.stop i) ∧ (∀ c ∈ starts, ∃ i, c = Cmd.start i)) ∧
    ((s.audioBlocks.map AudioBlock.id).Nodup →
      ∀ i, Cmd.stop i ∈ (checkBlocksForPlayback s cb pb).2 →
        Cmd.start i ∉ (checkBlocksForPlayback s cb pb).2) := by
  unfold checkBlocksForPlayback
  obtain ⟨t1, ht1, hall1⟩ := stopFold_trace cb s.playing (s, [])
  obtain ⟨t2, ht2, hall2⟩ :=
    startFold_trace cb s.audioBlocks (s.playing.foldl (stopPassStep cb) (s, []))
  rw [ht1] at ht2
  simp only [List.nil_append] at ht2
  constructor
  · refine ⟨t1, t2, ht2, fun c hc => ?_, fun c hc => ?_⟩
    · obtain ⟨j, -, -, hcj⟩ := hall1 c hc
      exact ⟨j, hcj⟩
    · obtain ⟨b, -, -, hcb⟩ := hall2 c hc
      exact ⟨b.id, hcb⟩
  · intro hnd i hstop hstart
    rw [ht2] at hstop hstart
    have hss : shouldStop s.audioBlocks cb i = true := by
      rcases List.mem_append.mp hstop with h1 | h2
      · obtain ⟨j, -, hjs, hcj⟩ := hall1 _ h1
        cases hcj
        exact hjs
      · obtain ⟨b, -, -, hcb⟩ := hall2 _ h2
        cases hcb
    have hbr : ∃ b ∈ s.audioBlocks, b.id = i ∧ inRange cb b = true := by
      rcases List.mem_append.mp hstart with h1 | h2
      · obtain ⟨j, -, -, hcj⟩ := hall1 _ h1
        cases hcj
      · obtain ⟨b, hb, hbir, hcb⟩ := hall2 _ h2
        exact ⟨b, hb, by injection hcb with h; exact h.symm, hbir⟩
    obtain ⟨b, hb, hbi, hbir⟩ := hbr
    subst hbi
    unfold shouldStop at hss
    rw [find?_id_of_nodup s.audioBlocks b hnd hb] at hss
    simp [hbir] at hss

/-- A two-element scenario for the C6 witness: a stale playing id `"x"`
whose block is gone, plus a block `"y"` (with audio) under the playhead. -/
def c6State : SchedulerState :=
  ⟨[⟨"y", "t1", "n", 1, 4, some "u", none⟩], ["x"], [], initialMixer⟩

/-- Claim C6 witness: on `c6State` the block ids are duplicate-free, a stop
for `"x"` is emitted, and no start for `"x"` follows in the same tick. -/
theorem checkBlocks_stops_before_starts_witness :
    (c6State.audioBlocks.map AudioBlock.id).Nodup ∧
    Cmd.stop "x" ∈ (checkBlocksForPlayback c6State 2 1).2 ∧
    Cmd.start "x" ∉ (checkBlocksForPlayback c6State 2 1).2 :=
  ⟨by decide,
    by
      have h1 : (("y" : String) == "x") = false := by decide
      have h2 : (("y" : String) == "y") = true := by decide
      norm_num [c6State, checkBlocksForPlayback, stopPassStep, startPassStep,
        shouldStop, playAudioBlock, stopAudioBlock, inRange, initialMixer,
        AudioMixer.removeSource, AudioMixer.findSource, List.foldl, List.find?,
        h1, h2],
    (checkBlocks_stops_before_starts c6State 2 1).2 (by decide) "x"
      (by
        have h1 : (("y" : String) == "x") = false := by decide
        have h2 : (("y" : String) == "y") = true := by decide
        norm_num [c6State, checkBlocksForPlayback, stopPassStep, startPassStep,
          shouldStop, playAudioBlock, stopAudioBlock, inRange, initialMixer,
          AudioMixer.removeSource, AudioMixer.findSource, List.foldl, List.find?,
          h1, h2])⟩

/-- Claim C7: if an id is playing but no block with that id exists any
longer (the block was deleted), the next reconciliation tick emits a stop
command for it and it is no longer playing afterwards. -/
theorem checkBlocks_stops_deleted (s : SchedulerState) (cb pb : ℚ) (i : String)
    (hp : i ∈ s.playing) (hb : ∀ b ∈ s.audioBlocks, b.id ≠ i) :
    Cmd.stop i ∈ (checkBlocksForPlayback s cb pb).2 ∧
    i ∉ (checkBlocksForPlayback s cb pb).1.playing := by
  have hss : shouldStop s.audioBlocks cb i = true := by
    unfold shouldStop
    rw [List.find?_eq_none.mpr (fun b hbm => by simpa using hb b hbm)]
  unfold checkBlocksForPlayback
  constructor
  · obtain ⟨t2, ht2, -⟩ :=
      startFold_trace cb s.audioBlocks (s.playing.foldl (stopPassStep cb) (s, []))
    rw [ht2]
    exact List.mem_append_left t2 (stopFold_emits cb s.playing (s, []) i hp hss)
  · intro hmem
    rcases startFold_playing_mem_weak cb s.audioBlocks _ i hmem with h1 | ⟨b, hbm, hbi⟩
    · rw [stopFold_playing_mem] at h1
      exact h1.2 ⟨hp, hss⟩
    · exact hb b hbm hbi

/-- State for the C7 witness: id `"gone"` still playing, empty timeline. -/
def c7State : SchedulerState := ⟨[], ["gone"], [], initialMixer⟩

/-- Claim C7 witness: on `c7State` the deleted block's voice receives a
stop command and stops playing on the tick. -/
theorem checkBlocks_stops_deleted_witness :
    "gone" ∈ c7State.playing ∧
    Cmd.stop "gone" ∈ (checkBlocksForPlayback c7State 3 2).2 ∧
    "gone" ∉ (checkBlocksForPlayback c7State 3 2).1.playing :=
  ⟨by decide,
    (checkBlocks_stops_deleted c7State 3 2 "gone" (by decide) (by decide)).1,
    (checkBlocks_stops_deleted c7State 3 2 "gone" (by decide) (by decide)).2⟩

/-! ### Claim theorems: voice stopping, block insertion, drag moves -/

/-- After `removeSource`, the id is gone from the source map. -/
theorem findSource_removeSource (m : AudioMixer) (i : String) :
    (m.removeSource i).findSource i = none := by
  unfold AudioMixer.removeSource
  cases h : m.findSource i with
  | none => exact h
  | some src =>
    unfold AudioMixer.findSource
    apply List.find?_eq_none.mpr
    intro x hx
    have := (List.mem_filter.mp hx).2
    simpa using this

/-- `removeSource` of an absent id changes nothing. -/
theorem removeSource_absent (m : AudioMixer) (i : String)
    (h : m.findSource i = none) : m.removeSource i = m := by
  unfold AudioMixer.removeSource
  rw [h]

/-- A second `removeSource` on the same id is a no-op. -/
theorem removeSource_removeSource (m : AudioMixer) (i : String) :
    (m.removeSource i).removeSource i = m.removeSource i :=
  removeSource_absent _ i (findSource_removeSource m i)

/-- Claim C8: stopping a voice is idempotent — a second `stopAudioBlock`
for the same id leaves the state unchanged — and total: stopping an id that
is neither playing nor in the mixer is a no-op (and, being a total
function, it raises nothing). -/
theorem stopAudioBlock_idempotent (s : SchedulerState) (i : String) :
    stopAudioBlock (stopAudioBlock s i) i = stopAudioBlock s i ∧
    (i ∉ s.playing → s.mixer.findSource i = none → stopAudioBlock s i = s) := by
  constructor
  · unfold stopAudioBlock
    rw [List.filter_filter]
    simp only [Bool.and_self, removeSource_removeSource]
  · intro hp hm
    unfold stopAudioBlock
    rw [removeSource_absent s.mixer i hm]
    rw [List.filter_eq_self.mpr (fun a ha => by
      simp only [bne_iff_ne, ne_eq, decide_eq_true_eq]
      exact fun he => hp (he ▸ ha))]

/-- Claim C8 witness: the empty scheduler state, stopping the absent id
`"v"`. -/
theorem stopAudioBlock_idempotent_witness :
    stopAudioBlock (stopAudioBlock ⟨[], [], [], initialMixer⟩ "v") "v" =
      stopAudioBlock ⟨[], [], [], initialMixer⟩ "v" ∧
    ("v" ∉ (⟨[], [], [], initialMixer⟩ : SchedulerState).playing ∧
      (⟨[], [], [], initialMixer⟩ : SchedulerState).mixer.findSource "v" = none) ∧
    stopAudioBlock ⟨[], [], [], initialMixer⟩ "v" = ⟨[], [], [], initialMixer⟩ :=
  ⟨(stopAudioBlock_idempotent ⟨[], [], [], initialMixer⟩ "v").1,
    ⟨by decide, by decide⟩,
    (stopAudioBlock_idempotent ⟨[], [], [], initialMixer⟩ "v").2 (by decide) (by decide)⟩

/-- Claim C9 (amended): `addAudioBlock` performs no validation whatsoever —
every block, including one with `duration ≤ 0`, is appended to the timeline
unconditionally, and nothing else in the state changes.  The claim as
frozen (rejection with an error) is refuted by the counterexample below. -/
theorem addAudioBlock_appends (s : SchedulerState) (b : AudioBlock) :
    (addAudioBlock s b).audioBlocks = s.audioBlocks ++ [b] ∧
    (addAudioBlock s b).playing = s.playing ∧
    (addAudioBlock s b).loadedPlayers = s.loadedPlayers ∧
    (addAudioBlock s b).mixer = s.mixer :=
  ⟨rfl, rfl, rfl, rfl⟩

/-- A zero-duration block for the C9 counterexample. -/
def zeroDurationBlock : AudioBlock := ⟨"z", "t1", "n", 1, 0, none, none⟩

/-- Claim C9 counterexample: a block with `duration = 0 ≤ 0` is silently
accepted — after `addAudioBlock` it sits in the timeline, refuting the
claim that it is rejected at the API boundary and not added. -/
theorem addAudioBlock_zero_duration_cex :
    zeroDurationBlock.duration ≤ 0 ∧
    zeroDurationBlock ∈ (addAudioBlock ⟨[], [], [], initialMixer⟩ zeroDurationBlock).audioBlocks := by
  constructor
  · norm_num [zeroDurationBlock]
  · simp [addAudioBlock]

/-- The object spread with only a `start` update rewrites exactly the
`start` property. -/
theorem applyUpdates_start (b : AudioBlock) (q : ℚ) :
    applyUpdates b { start := some q } = { b with start := q } := rfl

/-- Claim C10: a drag-move update (`handleMouseMove` while dragging an
existing block) leaves the playing set, loaded players and mixer untouched,
and rewrites the block list so that only blocks carrying the dragged id
change, and only in their `start` field, which becomes the drag-start beat
plus the pixel delta rounded to a whole number of beats (64 px per beat),
clamped at beat 1; the clamped result is always ≥ 1. -/
theorem handleMouseMove_frame (s : SchedulerState) (d : DragState) (x : ℚ) (i : String)
    (hdrag : d.draggedBlock = some i)
    (hfound : (s.audioBlocks.find? (fun b => b.id == i)).isSome = true) :
    (1 : ℚ) ≤ max 1 (d.dragStartBeat + (jsRound ((x - d.dragStartX) / 64) : ℚ)) ∧
    (handleMouseMove s d x).playing = s.playing ∧
    (handleMouseMove s d x).loadedPlayers = s.loadedPlayers ∧
    (handleMouseMove s d x).mixer = s.mixer ∧
    (handleMouseMove s d x).audioBlocks = s.audioBlocks.map (fun b =>
      if b.id = i then
        { b with start := max 1 (d.dragStartBeat + (jsRound ((x - d.dragStartX) / 64) : ℚ)) }
      else b) := by
  obtain ⟨blk, hblk⟩ := Option.isSome_iff_exists.mp hfound
  simp only [handleMouseMove, hdrag, hblk]
  refine ⟨le_max_left 1 _, rfl, ?_, rfl, ?_⟩
  · unfold updateAudioBlock
    rfl
  · unfold updateAudioBlock
    simp only [applyUpdates_start]
    apply List.map_congr_left
    intro b hbm
    by_cases hbi : b.id = i
    · simp [hbi]
    · simp [hbi]

/-- Scheduler state for the C10 witness: one block starting at beat 5. -/
def dragState10 : SchedulerState := ⟨[⟨"d1", "t1", "n", 5, 4, none, none⟩], [], [], initialMixer⟩

/-- Claim C10 witness: dragging block `"d1"` 640 px to the left rounds to
−10 beats and clamps the new start at beat 1; nothing else changes. -/
theorem handleMouseMove_frame_witness :
    (dragState10.audioBlocks.find? (fun b => b.id == "d1")).isSome = true ∧
    (1 : ℚ) ≤ max 1 ((5 : ℚ) + (jsRound (((-640 : ℚ) - 0) / 64) : ℚ)) ∧
    (handleMouseMove dragState10 ⟨some "d1", 0, 5⟩ (-640)).playing = dragState10.playing ∧
    (handleMouseMove dragState10 ⟨some "d1", 0, 5⟩ (-640)).loadedPlayers = dragState10.loadedPlayers ∧
    (handleMouseMove dragState10 ⟨some "d1", 0, 5⟩ (-640)).mixer = dragState10.mixer ∧
    (handleMouseMove dragState10 ⟨some "d1", 0, 5⟩ (-640)).audioBlocks =
      dragState10.audioBlocks.map (fun b =>
        if b.id = "d1" then
          { b with start := max 1 ((5 : ℚ) + (jsRound (((-640 : ℚ) - 0) / 64) : ℚ)) }
        else b) :=
  ⟨by decide,
    (handleMouseMove_frame dragState10 ⟨some "d1", 0, 5⟩ (-640) "d1" rfl (by decide)).1,
    (handleMouseMove_frame dragState10 ⟨some "d1", 0, 5⟩ (-640) "d1" rfl (by decide)).2.1,
    (handleMouseMove_frame dragState10 ⟨some "d1", 0, 5⟩ (-640) "d1" rfl (by decide)).2.2.1,
    (handleMouseMove_frame dragState10 ⟨some "d1", 0, 5⟩ (-640) "d1" rfl (by decide)).2.2.2.1,
    (handleMouseMove_frame dragState10 ⟨some "d1", 0, 5⟩ (-640) "d1" rfl (by decide)).2.2.2.2⟩

/-! ### Claim theorems: transport clock -/

/-- The clamp in `changeBpm` never returns zero. -/
theorem clampBpm_pos (x : ℚ) : 0 < clampBpm x :=
  lt_of_lt_of_le (by norm_num) (le_max_left 20 (min 300 x))

/-- Claim C2: a `changeBpm` issued while the clock is running (anchored
start time) re-anchors the origin so that the beat position at the instant
of the change is exactly preserved (difference 0, in particular below any
tick's worth of beats), and at any later wall-clock time the beat advances
from that preserved position at the clamped new tempo's rate. -/
theorem changeBpm_beat_continuous (p : PlaybackState) (newBpm now t : ℚ)
    (hplay : p.isPlaying = true) (st : ℚ) (hst : p.startTime = some st) :
    beatAt (changeBpm p newBpm now) now = beatAt p now ∧
    beatAt (changeBpm p newBpm now) t =
      beatAt p now + (t - now) / 1000 * (clampBpm newBpm / 60) := by
  have hv : clampBpm newBpm ≠ 0 := ne_of_gt (clampBpm_pos newBpm)
  have hbps : clampBpm newBpm / 60 ≠ 0 := div_ne_zero hv (by norm_num)
  have key : ∀ u : ℚ, beatAt (changeBpm p newBpm now) u =
      (now - st) / 1000 * (p.bpm / 60) + (u - now) / 1000 * (clampBpm newBpm / 60) := by
    intro u
    unfold changeBpm beatAt
    simp only [hplay, hst, if_true]
    field_simp
    ring
  have hbefore : beatAt p now = (now - st) / 1000 * (p.bpm / 60) := by
    unfold beatAt
    simp [hplay, hst]
  refine ⟨?_, ?_⟩
  · rw [key now, hbefore]
    ring
  · rw [key t, hbefore]

/-- A playing transport state anchored at time 0 for the C2 witness. -/
def playingState2 : PlaybackState := ⟨true, 0, 1, 120, some 0⟩

/-- Claim C2 witness: changing 120 → 90 bpm at wall-clock 1000 ms preserves
the beat, and beat 2 later advances at the 90 bpm rate. -/
theorem changeBpm_beat_continuous_witness :
    playingState2.isPlaying = true ∧
    playingState2.startTime = some 0 ∧
    beatAt (changeBpm playingState2 90 1000) 1000 = beatAt playingState2 1000 ∧
    beatAt (changeBpm playingState2 90 1000) 2000 =
      beatAt playingState2 1000 + (2000 - 1000) / 1000 * (clampBpm 90 / 60) :=
  ⟨rfl, rfl,
    (changeBpm_beat_continuous playingState2 90 1000 2000 rfl 0 rfl).1,
    (changeBpm_beat_continuous playingState2 90 1000 2000 rfl 0 rfl).2⟩

/-- Claim C5 (amended): pausing (`togglePlayback` while playing) freezes
`currentBeat` at its last value, but resuming (`togglePlayback` while
stopped) re-anchors the start time to the resume instant, so the next beat
update computes the beat from zero elapsed time — playback restarts from
beat 0 instead of continuing from the frozen beat; `stopPlayback`
explicitly resets the beat to 0.  Continuity therefore holds only inside a
single uninterrupted playing span, refuting the claim as frozen (see the
counterexample). -/
theorem pause_freezes_resume_restarts (p : PlaybackState) (now t : ℚ) :
    (p.isPlaying = true →
      (togglePlayback p now).currentBeat = p.currentBeat ∧
      (togglePlayback p now).isPlaying = false) ∧
    (p.isPlaying = false →
      (updateBeatPosition (togglePlayback p now) t).currentBeat =
        (t - now) / 1000 * (p.bpm / 60)) ∧
    (stopPlayback p).currentBeat = 0 ∧ (stopPlayback p).isPlaying = false := by
  refine ⟨fun h => ?_, fun h => ?_, rfl, rfl⟩
  · unfold togglePlayback
    rw [if_pos h]
    exact ⟨rfl, rfl⟩
  · unfold togglePlayback
    rw [if_neg (by simp [h])]
    unfold updateBeatPosition
    simp

/-- A paused transport at beat 7 for the C5 amended-claim witness. -/
def pausedState5 : PlaybackState := ⟨false, 7, 2, 120, none⟩

/-- A playing transport at beat 7 for the C5 amended-claim witness. -/
def playingState5 : PlaybackState := ⟨true, 7, 2, 120, some 0⟩

/-- Claim C5 witness: pausing `playingState5` keeps beat 7; resuming
`pausedState5` at 2000 ms and updating at 2500 ms yields beat 1 (computed
from the resume anchor, not from the frozen beat 7). -/
theorem pause_freezes_resume_restarts_witness :
    playingState5.isPlaying = true ∧
    (togglePlayback playingState5 1000).currentBeat = playingState5.currentBeat ∧
    pausedState5.isPlaying = false ∧
    (updateBeatPosition (togglePlayback pausedState5 2000) 2500).currentBeat =
      (2500 - 2000) / 1000 * (pausedState5.bpm / 60) :=
  ⟨rfl,
    ((pause_freezes_resume_restarts playingState5 1000 0).1 rfl).1,
    rfl,
    (pause_freezes_resume_restarts pausedState5 2000 2500).2.1 rfl⟩

/-- Claim C5 counterexample: play at 0 ms, update at 1000 ms (beat 2 at
120 bpm), pause at 1000 ms (beat stays frozen at 2), resume at 2000 ms and
update at that very instant — the beat is 0, not the frozen 2, a
discontinuity with no seek involved. -/
theorem resume_discontinuity_cex :
    (togglePlayback (updateBeatPosition
        (togglePlayback ⟨false, 0, 1, 120, none⟩ 0) 1000) 1000).currentBeat = 2 ∧
    (updateBeatPosition (togglePlayback (togglePlayback (updateBeatPosition
        (togglePlayback ⟨false, 0, 1, 120, none⟩ 0) 1000) 1000) 2000) 2000).currentBeat = 0 ∧
    (2 : ℚ) ≠ 0 := by
  refine ⟨?_, ?_, by norm_num⟩
  · norm_num [togglePlayback, updateBeatPosition]
  · norm_num [togglePlayback, updateBeatPosition]

/-! ### Claim theorems: mixer solo semantics and gain staging -/

/-- Mapping `_updateSourceGain` over a source list does not change which
sources are soloed. -/
theorem anySolo_map_update (l : List AudioSource) (mu a : Bool) :
    (l.map (updateSourceGainCalc mu a)).any (fun s => s.options.solo) =
      l.any (fun s => s.options.solo) := by
  induction l with
  | nil => rfl
  | cons h t ih => simp [updateSourceGainCalc_options, ih]

/-- Claim C3 (amended): the solo law holds immediately after the operation
that recomputes all gains — after `setSourceSolo` on an existing id, if any
source is soloed then every non-soloed source has applied gain 0,
independently of its own mute flag and stored gain.  It does not survive
`setSourceGain` or `addSource` while a solo is active, which write a
non-soloed source's applied gain without consulting solo state (see the
counterexample). -/
theorem solo_silences_after_recompute (m : AudioMixer) (i : String) (flag : Bool)
    (src : AudioSource)
    (hfound : (m.findSource i).isSome = true)
    (hmem : src ∈ (m.setSourceSolo i flag).activeSources)
    (hany : (m.setSourceSolo i flag).anySolo = true)
    (hns : src.options.solo = false) :
    src.appliedGain = 0 := by
  obtain ⟨fs, hfs⟩ := Option.isSome_iff_exists.mp hfound
  unfold AudioMixer.setSourceSolo at hmem hany
  rw [hfs] at hmem hany
  simp only [AudioMixer.anySolo] at hany
  rw [anySolo_map_update] at hany
  simp only [AudioMixer.anySolo] at hmem
  obtain ⟨t, -, ht⟩ := List.mem_map.mp hmem
  subst ht
  simp only [updateSourceGainCalc_options] at hns
  unfold updateSourceGainCalc
  rw [hany]
  simp [hns]

/-- Mixer with a soloed source `"p"` and a plain source `"q"` for the C3
witness. -/
def soloWitnessMixer : AudioMixer :=
  (initialMixer.addSource "p" {}).addSource "q" {}

/-- The state of source `"q"` after `"p"` is soloed: silenced. -/
def soloWitnessQ : AudioSource :=
  ⟨"q", 0, 0, ⟨8/10, 0, 1/100, 1/100, false, false⟩⟩

/-- Evaluation of the C3 witness mixer after the solo recompute. -/
theorem soloWitnessMixer_eval :
    (soloWitnessMixer.setSourceSolo "p" true).activeSources =
      [⟨"p", 8/10, 0, ⟨8/10, 0, 1/100, 1/100, true, false⟩⟩, soloWitnessQ] := by
  have hf : (0 : ℚ) < 1/100 := by norm_num
  simp [soloWitnessMixer, soloWitnessQ, initialMixer, AudioMixer.addSource,
    applyDefaults, setSource, AudioMixer.setSourceSolo, AudioMixer.findSource,
    AudioMixer.anySolo, updateSourceGainCalc, List.find?, hf]

/-- Claim C3 witness: soloing `"p"` silences the non-soloed `"q"` (applied
gain 0) on the recompute path. -/
theorem solo_silences_after_recompute_witness :
    (soloWitnessMixer.findSource "p").isSome = true ∧
    soloWitnessQ ∈ (soloWitnessMixer.setSourceSolo "p" true).activeSources ∧
    (soloWitnessMixer.setSourceSolo "p" true).anySolo = true ∧
    soloWitnessQ.options.solo = false ∧
    soloWitnessQ.appliedGain = 0 :=
  ⟨by decide, by rw [soloWitnessMixer_eval]; simp, by decide, by decide,
    solo_silences_after_recompute soloWitnessMixer "p" true soloWitnessQ
      (by decide) (by rw [soloWitnessMixer_eval]; simp) (by decide) (by decide)⟩

/-- Mixer with `"a"` soloed and `"b"` silenced by the solo recompute, for
the C3 counterexample. -/
def soloCexBase : AudioMixer :=
  ((initialMixer.addSource "a" {}).addSource "b" {}).setSourceSolo "a" true

/-- `soloCexBase` after `setSourceGain "b" 0.5`: `"b"` is audible again. -/
def soloCexAfterGain : AudioMixer := soloCexBase.setSourceGain "b" (1/2)

/-- `soloCexBase` after `addSource "c"`: the new non-soloed source is
audible. -/
def soloCexAfterAdd : AudioMixer := soloCexBase.addSource "c" {}

/-- Claim C3 counterexample: with `"a"` soloed, `setSourceGain` on the
non-soloed `"b"` ramps its applied gain to 1/2 ≠ 0, and `addSource` of a
new non-soloed `"c"` gives it applied gain 4/5 ≠ 0 — both refute the claim
that the solo law survives these operations. -/
theorem solo_bypass_cex :
    soloCexAfterGain.anySolo = true ∧
    (⟨"b", 1/2, 0, ⟨1/2, 0, 1/100, 1/100, false, false⟩⟩ : AudioSource) ∈
      soloCexAfterGain.activeSources ∧
    soloCexAfterAdd.anySolo = true ∧
    (⟨"c", 8/10, 0, ⟨8/10, 0, 1/100, 1/100, false, false⟩⟩ : AudioSource) ∈
      soloCexAfterAdd.activeSources ∧
    (1/2 : ℚ) ≠ 0 ∧ (8/10 : ℚ) ≠ 0 := by
  have hf : (0 : ℚ) < 1/100 := by norm_num
  have hbase : soloCexBase.activeSources =
      [⟨"a", 8/10, 0, ⟨8/10, 0, 1/100, 1/100, true, false⟩⟩,
       ⟨"b", 0, 0, ⟨8/10, 0, 1/100, 1/100, false, false⟩⟩] := by
    simp [soloCexBase, initialMixer, AudioMixer.addSource, applyDefaults,
      setSource, AudioMixer.setSourceSolo, AudioMixer.findSource,
      AudioMixer.anySolo, updateSourceGainCalc, List.find?, hf]
  have hgain : soloCexAfterGain.activeSources =
      [⟨"a", 8/10, 0, ⟨8/10, 0, 1/100, 1/100, true, false⟩⟩,
       ⟨"b", 1/2, 0, ⟨1/2, 0, 1/100, 1/100, false, false⟩⟩] := by
    have hm : soloCexBase.muted = false := rfl
    simp [soloCexAfterGain, AudioMixer.setSourceGain, hbase, hm]
  have hadd : soloCexAfterAdd.activeSources =
      [⟨"a", 8/10, 0, ⟨8/10, 0, 1/100, 1/100, true, false⟩⟩,
       ⟨"b", 0, 0, ⟨8/10, 0, 1/100, 1/100, false, false⟩⟩,
       ⟨"c", 8/10, 0, ⟨8/10, 0, 1/100, 1/100, false, false⟩⟩] := by
    have hm : soloCexBase.muted = false := rfl
    simp [soloCexAfterAdd, AudioMixer.addSource, applyDefaults, setSource,
      hbase, hm, hf]
  refine ⟨?_, ?_, ?_, ?_, by norm_num, by norm_num⟩
  · simp [AudioMixer.anySolo, hgain]
  · rw [hgain]; simp
  · simp [AudioMixer.anySolo, hadd]
  · rw [hadd]; simp

/-- For every count ≥ 1 the bus gain follows the logarithmic formula (at
count 1 both branches give 1 since `log 1 = 0`). -/
theorem mixGain_formula (k : ℕ) (hk : 1 ≤ k) :
    mixGain k = 1 / (1 + Real.log k * 0.25) := by
  rcases lt_or_eq_of_le hk with hk1 | hk1
  · simp [mixGain, hk1]
  · rw [← hk1]
    simp [mixGain, Real.log_one]

/-- Claim C4: the summing-bus compensation gain satisfies `g(1) = 1` and
`g(N) = 1 / (1 + ln N * 0.25)` for `N > 1`, and is strictly decreasing in
the voice count on `N ≥ 1`. -/
theorem mixGain_spec :
    mixGain 1 = 1 ∧
    (∀ n : ℕ, 1 < n → mixGain n = 1 / (1 + Real.log n * 0.25)) ∧
    (∀ m n : ℕ, 1 ≤ m → m < n → mixGain n < mixGain m) := by
  refine ⟨by norm_num [mixGain], fun n hn => by simp [mixGain, hn], ?_⟩
  intro m n h1 hmn
  have hm1 : (1 : ℝ) ≤ (m : ℝ) := by exact_mod_cast h1
  have hmpos : (0 : ℝ) < (m : ℝ) := by linarith
  have hcast : (m : ℝ) < (n : ℝ) := by exact_mod_cast hmn
  have hlog : Real.log m < Real.log n := Real.log_lt_log hmpos hcast
  have hlm : 0 ≤ Real.log m := Real.log_nonneg hm1
  have hdm : 0 < 1 + Real.log m * 0.25 := by nlinarith
  have hdn : 1 + Real.log m * 0.25 < 1 + Real.log n * 0.25 := by nlinarith
  rw [mixGain_formula m h1, mixGain_formula n (le_of_lt (lt_of_le_of_lt h1 hmn))]
  exact one_div_lt_one_div_of_lt hdm hdn

/-- Claim C4 witness: at the concrete counts 1 and 2 the formula and the
strict decrease hold. -/
theorem mixGain_spec_witness :
    (1 : ℕ) < 2 ∧ mixGain 2 = 1 / (1 + Real.log 2 * 0.25) ∧
    (1 : ℕ) ≤ 1 ∧ mixGain 2 < mixGain 1 :=
  ⟨by norm_num, mixGain_spec.2.1 2 (by norm_num), le_refl 1,
    mixGain_spec.2.2 1 2 (le_refl 1) (by norm_num)⟩
